import Mathlib

/-!
# Verification of the last-working-day calculator (`src/app.py`)

Shallow embedding of the core logic of the repository
`mindblendstudios/lastworkingday`.

Calendar dates are embedded as proleptic Gregorian ordinals (`Nat`), the
same encoding as Python's `date.toordinal()`: ordinal 1 is 0001-01-01,
and adding `timedelta(days = k)` is ordinal addition by `k`.
`weekday` matches Python's `date.weekday()` (Monday = 0 … Sunday = 6).
`yearOf` recovers the calendar year of an ordinal, matching `date.year`.

The holiday provider (an HTTP call in the source) is embedded as an
oracle `String → Nat → Option (List Nat)`: `some hs` is a response whose
parsed holiday list is `hs`, `none` is any failure that raises inside
`fetch_public_holidays` (network error, malformed JSON, bad date string),
which the source catches and turns into the empty list.

The `while` loop of `calculate_last_working_day` is embedded as a
fuel-indexed recursion `rollforward`; the fuel chosen in
`calculate_last_working_day` is proved sufficient (the loop result is
unchanged by any extra fuel), so the embedding computes exactly the
value the terminating Python loop returns.
-/

namespace LastWorkingDay

/-- Python `date.weekday()` on an ordinal: ordinal 1 (0001-01-01) is a
Monday, so `weekday n = (n + 6) % 7` with Monday = 0 … Sunday = 6. -/
def weekday (n : Nat) : Nat := (n + 6) % 7

/-- Ordinal (Python `date.toordinal()`) of a Gregorian date
`year-month-day`, for `year ≥ 1` and a valid month/day. -/
def toOrdinal (year month day : Nat) : Nat :=
  let yAdj := if month ≤ 2 then year - 1 else year
  let era := yAdj / 400
  let yoe := yAdj % 400
  let mp := if month ≤ 2 then month + 9 else month - 3
  let doy := (153 * mp + 2) / 5 + day - 1
  let doe := yoe * 365 + yoe / 4 - yoe / 100 + doy
  era * 146097 + doe - 305

/-- Calendar year (Python `date.year`) of an ordinal. -/
def yearOf (n : Nat) : Nat :=
  let z := n + 305
  let era := z / 146097
  let doe := z % 146097
  let yoe := (doe - doe / 1460 + doe / 36524 - doe / 146096) / 365
  let doy := doe - (365 * yoe + yoe / 4 - yoe / 100)
  let mp := (5 * doy + 2) / 153
  era * 400 + yoe + (if 10 ≤ mp then 1 else 0)

/-- Python's `str.lower()` as used on country names, embedded as
per-character ASCII case mapping (the case folding relevant to the
country tables of the source, which are all ASCII). -/
def lower (s : String) : String := String.mk (s.data.map Char.toLower)

/-- `get_weekend_days` from `src/app.py` (lines 21–27): lower-cases the
country, returns `[5, 6]` (Sat, Sun) for the first group, `[4, 5]`
(Fri, Sat) for the second, and `[5, 6]` otherwise. -/
def get_weekend_days (country : String) : List Nat :=
  let country := lower country
  if country ∈ ["india", "usa", "uk", "canada", "australia", "singapore"] then
    [5, 6]
  else if country ∈ ["uae", "saudi arabia", "qatar"] then
    [4, 5]
  else
    [5, 6]

/-- `fetch_public_holidays` from `src/app.py` (lines 29–41): the provider
oracle gives the parsed holiday list of the HTTP response, or `none` when
anything in the `try` block raises; the `except` branch returns `[]`. -/
def fetch_public_holidays (provider : String → Nat → Option (List Nat))
    (country_code : String) (year : Nat) : List Nat :=
  match provider country_code year with
  | some holidays_list => holidays_list
  | none => []

/-- The `while` loop of `calculate_last_working_day`
(`src/app.py` lines 48–55), as a fuel-indexed recursion: while the
tentative day is a weekend day or a holiday, advance by one day — except
that under `"exclude_weekends_only"` a blocked day that is not a weekend
day breaks out of the loop. -/
def rollforward (company_rule : String) (weekend_days all_holidays : List Nat) :
    Nat → Nat → Nat
  | 0, tentative => tentative
  | fuel + 1, tentative =>
    if weekday tentative ∈ weekend_days ∨ tentative ∈ all_holidays then
      if company_rule = "exclude_weekends_only" then
        if weekday tentative ∈ weekend_days then
          rollforward company_rule weekend_days all_holidays fuel (tentative + 1)
        else
          tentative
      else
        rollforward company_rule weekend_days all_holidays fuel (tentative + 1)
    else
      tentative

/-- Fuel sufficient for the loop to reach its stopping day: the distance
from the tentative day to three days past an upper bound of the holidays
and the tentative day itself. -/
def stdFuel (all_holidays : List Nat) (tentative : Nat) : Nat :=
  all_holidays.foldr Nat.max tentative + 3 - tentative

/-- `calculate_last_working_day` from `src/app.py` (lines 43–56):
tentative day = resignation date + notice period; holidays = provider
holidays for the tentative day's year, then the custom holidays; then
the rollforward loop. -/
def calculate_last_working_day (resignation_date notice_period : Nat)
    (country_code : String) (provider : String → Nat → Option (List Nat))
    (custom_holidays : List Nat) (company_rule : String) : Nat :=
  let weekend_days := get_weekend_days country_code
  let tentative_last_day := resignation_date + notice_period
  let all_holidays :=
    fetch_public_holidays provider country_code (yearOf tentative_last_day)
      ++ custom_holidays
  rollforward company_rule weekend_days all_holidays
    (stdFuel all_holidays tentative_last_day) tentative_last_day

/-- The loop condition of `calculate_last_working_day`: the day is a
weekend day or is in the holiday list. -/
def blocked (weekend_days all_holidays : List Nat) (t : Nat) : Prop :=
  weekday t ∈ weekend_days ∨ t ∈ all_holidays

/-- The first of the three days after `B` that is not a weekend day. -/
def escapeDay (w : List Nat) (B : Nat) : Nat :=
  if weekday (B + 1) ∈ w then
    if weekday (B + 2) ∈ w then B + 3 else B + 2
  else B + 1

/-! ## Validation of the date embedding and the worked scenarios -/

example : toOrdinal 1 1 1 = 1 := by decide
example : toOrdinal 2024 1 1 = 738886 := by decide
example : weekday (toOrdinal 2024 1 1) = 0 := by decide
example : weekday (toOrdinal 2024 1 6) = 5 := by decide
example : yearOf (toOrdinal 2024 1 1) = 2024 := by decide
example : yearOf (toOrdinal 2023 12 31) = 2023 := by decide
example : yearOf (toOrdinal 2024 12 31) = 2024 := by decide
example : yearOf (toOrdinal 2000 2 29) = 2000 := by decide
example : toOrdinal 2024 3 11 = toOrdinal 2024 3 1 + 10 := by decide
example : get_weekend_days "UsA" = [5, 6] := by decide
example : get_weekend_days "QATAR" = [4, 5] := by decide
example : get_weekend_days "germany" = [5, 6] := by decide

example :
    calculate_last_working_day (toOrdinal 2024 1 1) 5 "USA"
      (fun _ _ => some []) [] "include_weekends" = toOrdinal 2024 1 8 := by
  decide

example :
    calculate_last_working_day (toOrdinal 2024 1 1) 5 "UAE"
      (fun _ _ => some []) [] "include_weekends" = toOrdinal 2024 1 7 := by
  decide

example :
    calculate_last_working_day (toOrdinal 2024 3 1) 10 "USA"
      (fun _ _ => some []) [toOrdinal 2024 3 11] "include_weekends" =
      toOrdinal 2024 3 12 := by
  decide

/-! ## Lemmas about the rollforward loop -/

/-- The loop never moves the tentative day backwards. -/
theorem rollforward_le (rule : String) (w h : List Nat) :
    ∀ fuel t, t ≤ rollforward rule w h fuel t := by
  intro fuel
  induction fuel with
  | zero => intro t; exact Nat.le_refl t
  | succ n ih =>
    intro t
    rw [rollforward]
    split
    · split
      · split
        · exact Nat.le_trans (Nat.le_succ t) (ih (t + 1))
        · exact Nat.le_refl t
      · exact Nat.le_trans (Nat.le_succ t) (ih (t + 1))
    · exact Nat.le_refl t

/-- Under any rule other than `"exclude_weekends_only"`, if some
non-blocked day lies within reach of the fuel, the loop result is not
blocked and every day skipped over was blocked. -/
theorem rollforward_include_spec (rule : String)
    (hr : rule ≠ "exclude_weekends_only") (w h : List Nat) :
    ∀ fuel t, (∃ d, t ≤ d ∧ d ≤ t + fuel ∧ ¬ blocked w h d) →
      ¬ blocked w h (rollforward rule w h fuel t) ∧
      ∀ e, t ≤ e → e < rollforward rule w h fuel t → blocked w h e := by
  intro fuel
  induction fuel with
  | zero =>
    intro t ⟨d, hd1, hd2, hd3⟩
    have : d = t := Nat.le_antisymm (by omega) hd1
    subst this
    rw [rollforward]
    exact ⟨hd3, fun e he1 he2 => absurd (Nat.lt_of_le_of_lt he1 he2) (Nat.lt_irrefl d)⟩
  | succ n ih =>
    intro t ⟨d, hd1, hd2, hd3⟩
    by_cases hb : weekday t ∈ w ∨ t ∈ h
    · have hdt : d ≠ t := by
        intro he; exact hd3 (he ▸ hb)
      have hstep : rollforward rule w h (n + 1) t = rollforward rule w h n (t + 1) := by
        rw [rollforward, if_pos hb, if_neg hr]
      rw [hstep]
      have ⟨ih1, ih2⟩ := ih (t + 1) ⟨d, by omega, by omega, hd3⟩
      refine ⟨ih1, fun e he1 he2 => ?_⟩
      rcases Nat.eq_or_lt_of_le he1 with he | he
      · exact he ▸ hb
      · exact ih2 e he he2
    · rw [rollforward, if_neg hb]
      exact ⟨hb, fun e he1 he2 => absurd (Nat.lt_of_le_of_lt he1 he2) (Nat.lt_irrefl t)⟩

/-- Under `"exclude_weekends_only"`, if some non-weekend day lies within
reach of the fuel, the loop result is not a weekend day and every day
skipped over was a weekend day. -/
theorem rollforward_exclude_spec (w h : List Nat) :
    ∀ fuel t, (∃ d, t ≤ d ∧ d ≤ t + fuel ∧ weekday d ∉ w) →
      weekday (rollforward "exclude_weekends_only" w h fuel t) ∉ w ∧
      ∀ e, t ≤ e → e < rollforward "exclude_weekends_only" w h fuel t →
        weekday e ∈ w := by
  intro fuel
  induction fuel with
  | zero =>
    intro t ⟨d, hd1, hd2, hd3⟩
    have : d = t := Nat.le_antisymm (by omega) hd1
    subst this
    rw [rollforward]
    exact ⟨hd3, fun e he1 he2 => absurd (Nat.lt_of_le_of_lt he1 he2) (Nat.lt_irrefl d)⟩
  | succ n ih =>
    intro t ⟨d, hd1, hd2, hd3⟩
    by_cases hwk : weekday t ∈ w
    · have hb : weekday t ∈ w ∨ t ∈ h := Or.inl hwk
      have hdt : d ≠ t := by
        intro he; exact hd3 (he ▸ hwk)
      have hstep : rollforward "exclude_weekends_only" w h (n + 1) t =
          rollforward "exclude_weekends_only" w h n (t + 1) := by
        rw [rollforward, if_pos hb, if_pos rfl, if_pos hwk]
      rw [hstep]
      have ⟨ih1, ih2⟩ := ih (t + 1) ⟨d, by omega, by omega, hd3⟩
      refine ⟨ih1, fun e he1 he2 => ?_⟩
      rcases Nat.eq_or_lt_of_le he1 with he | he
      · exact he ▸ hwk
      · exact ih2 e he he2
    · have hstop : rollforward "exclude_weekends_only" w h (n + 1) t = t := by
        rw [rollforward]
        by_cases hb : weekday t ∈ w ∨ t ∈ h
        · rw [if_pos hb, if_pos rfl, if_neg hwk]
        · rw [if_neg hb]
      rw [hstop]
      exact ⟨hwk, fun e he1 he2 => absurd (Nat.lt_of_le_of_lt he1 he2) (Nat.lt_irrefl t)⟩

/-- Two least elements at or above `t` of the same predicate agree. -/
theorem least_unique (P : Nat → Prop) (t r₁ r₂ : Nat)
    (ht₁ : t ≤ r₁) (hp₁ : P r₁) (hm₁ : ∀ e, t ≤ e → e < r₁ → ¬ P e)
    (ht₂ : t ≤ r₂) (hp₂ : P r₂) (hm₂ : ∀ e, t ≤ e → e < r₂ → ¬ P e) :
    r₁ = r₂ := by
  rcases Nat.lt_trichotomy r₁ r₂ with hlt | heq | hgt
  · exact absurd hp₁ (hm₂ r₁ ht₁ hlt)
  · exact heq
  · exact absurd hp₂ (hm₁ r₂ ht₂ hgt)

theorem le_foldr_max (t : Nat) (l : List Nat) : t ≤ l.foldr Nat.max t := by
  induction l with
  | nil => exact Nat.le_refl t
  | cons x xs ih => exact Nat.le_trans ih (Nat.le_max_right x (xs.foldr Nat.max t))

theorem mem_le_foldr_max (t x : Nat) (l : List Nat) (hx : x ∈ l) :
    x ≤ l.foldr Nat.max t := by
  induction l with
  | nil => cases hx
  | cons y ys ih =>
    rcases List.mem_cons.mp hx with h | h
    · exact h ▸ Nat.le_max_left y (ys.foldr Nat.max t)
    · exact Nat.le_trans (ih h) (Nat.le_max_right y (ys.foldr Nat.max t))

/-- `get_weekend_days` always returns one of the two weekend profiles. -/
theorem get_weekend_days_shape (c : String) :
    get_weekend_days c = [5, 6] ∨ get_weekend_days c = [4, 5] := by
  rw [get_weekend_days]
  split
  · exact Or.inl rfl
  · split
    · exact Or.inr rfl
    · exact Or.inl rfl

/-- For either weekend profile, `escapeDay` lands within three days past
`B` on a non-weekend day: at most two of three consecutive weekdays can
lie in a two-element set of consecutive weekday indices. -/
theorem escapeDay_spec (w : List Nat) (hw : w = [5, 6] ∨ w = [4, 5]) (B : Nat) :
    B < escapeDay w B ∧ escapeDay w B ≤ B + 3 ∧ weekday (escapeDay w B) ∉ w := by
  rw [escapeDay]
  split
  · split
    · refine ⟨by omega, by omega, ?_⟩
      rename_i h1 h2
      rcases hw with hw | hw <;>
        subst hw <;>
        simp only [weekday, List.mem_cons, List.not_mem_nil, or_false] at h1 h2 ⊢ <;>
        omega
    · refine ⟨by omega, by omega, by assumption⟩
  · exact ⟨by omega, by omega, by assumption⟩

/-- Within `stdFuel` of the tentative day there is a day that is neither
a weekend day nor a holiday: the `escapeDay` past the maximum of the
holidays. -/
theorem escape_exists (w h : List Nat) (hw : w = [5, 6] ∨ w = [4, 5]) (t : Nat) :
    ∃ d, t ≤ d ∧ d ≤ t + stdFuel h t ∧ ¬ blocked w h d := by
  obtain ⟨h1, h2, h3⟩ := escapeDay_spec w hw (h.foldr Nat.max t)
  have hle := le_foldr_max t h
  refine ⟨escapeDay w (h.foldr Nat.max t), by omega, ?_, ?_⟩
  · rw [stdFuel]; omega
  · intro hc
    rcases hc with hc | hc
    · exact h3 hc
    · have := mem_le_foldr_max t _ h hc
      omega

theorem three_le_stdFuel (h : List Nat) (t : Nat) : 3 ≤ stdFuel h t := by
  have := le_foldr_max t h
  rw [stdFuel]
  omega

/-- Within any fuel of at least three days there is a non-weekend day. -/
theorem nonweekend_exists (w : List Nat) (hw : w = [5, 6] ∨ w = [4, 5])
    (t fuel : Nat) (hf : 3 ≤ fuel) : ∃ d, t ≤ d ∧ d ≤ t + fuel ∧ weekday d ∉ w := by
  obtain ⟨h1, h2, h3⟩ := escapeDay_spec w hw t
  exact ⟨escapeDay w t, by omega, by omega, h3⟩

/-- `calculate_last_working_day`, unfolded to its rollforward loop. -/
theorem calculate_eq (r n : Nat) (c : String)
    (p : String → Nat → Option (List Nat)) (custom : List Nat) (rule : String) :
    calculate_last_working_day r n c p custom rule =
      rollforward rule (get_weekend_days c)
        (fetch_public_holidays p c (yearOf (r + n)) ++ custom)
        (stdFuel (fetch_public_holidays p c (yearOf (r + n)) ++ custom) (r + n))
        (r + n) := rfl

/-! ## The claims -/

/-- C1: for every resignation date, notice period, country, provider
holiday set and custom holiday list, the result of
`calculate_last_working_day` is at least resignation date + notice
period; and under the default rule `"include_weekends"` the result's
weekday is not in the country's weekend set and the result is not in
the union of the provider's holidays and the custom holidays. -/
theorem C1_lower_bound_and_working_day (r n : Nat) (c : String)
    (p : String → Nat → Option (List Nat)) (custom : List Nat) (rule : String) :
    r + n ≤ calculate_last_working_day r n c p custom rule ∧
    (rule = "include_weekends" →
      weekday (calculate_last_working_day r n c p custom rule) ∉
          get_weekend_days c ∧
      calculate_last_working_day r n c p custom rule ∉
        fetch_public_holidays p c (yearOf (r + n)) ++ custom) := by
  rw [calculate_eq]
  constructor
  · exact rollforward_le rule _ _ _ (r + n)
  · intro hrule
    have hne : rule ≠ "exclude_weekends_only" := by rw [hrule]; decide
    have hex := escape_exists (get_weekend_days c)
      (fetch_public_holidays p c (yearOf (r + n)) ++ custom)
      (get_weekend_days_shape c) (r + n)
    have hspec := (rollforward_include_spec rule hne _ _ _ (r + n) hex).1
    rw [blocked] at hspec
    exact ⟨fun hmem => hspec (Or.inl hmem), fun hmem => hspec (Or.inr hmem)⟩

theorem C1_witness :
    toOrdinal 2024 1 1 + 5 ≤
      calculate_last_working_day (toOrdinal 2024 1 1) 5 "USA"
        (fun _ _ => some []) [] "include_weekends" ∧
    weekday (calculate_last_working_day (toOrdinal 2024 1 1) 5 "USA"
        (fun _ _ => some []) [] "include_weekends") ∉ get_weekend_days "USA" ∧
    calculate_last_working_day (toOrdinal 2024 1 1) 5 "USA"
        (fun _ _ => some []) [] "include_weekends" ∉
      fetch_public_holidays (fun _ _ => some ([] : List Nat)) "USA"
        (yearOf (toOrdinal 2024 1 1 + 5)) ++ [] :=
  ⟨(C1_lower_bound_and_working_day (toOrdinal 2024 1 1) 5 "USA"
      (fun _ _ => some []) [] "include_weekends").1,
   (C1_lower_bound_and_working_day (toOrdinal 2024 1 1) 5 "USA"
      (fun _ _ => some []) [] "include_weekends").2 rfl⟩

/-- C2: under `"exclude_weekends_only"` the result is never a weekend
day, is at least resignation date + notice period, and every day between
the tentative day and the result was a weekend day — so the loop
advances only over weekend days and stops at the first non-weekend day,
even when that day is a holiday. The last conjunct shows the result can
be a holiday: 2024-03-11 is a custom holiday and is returned as-is. -/
theorem C2_exclude_weekends_only_spec :
    (∀ (r n : Nat) (c : String) (p : String → Nat → Option (List Nat))
      (custom : List Nat),
      weekday (calculate_last_working_day r n c p custom
          "exclude_weekends_only") ∉ get_weekend_days c ∧
      r + n ≤ calculate_last_working_day r n c p custom
          "exclude_weekends_only" ∧
      ∀ e, r + n ≤ e →
        e < calculate_last_working_day r n c p custom "exclude_weekends_only" →
        weekday e ∈ get_weekend_days c) ∧
    calculate_last_working_day (toOrdinal 2024 3 1) 10 "USA"
      (fun _ _ => some []) [toOrdinal 2024 3 11] "exclude_weekends_only" =
      toOrdinal 2024 3 11 := by
  constructor
  · intro r n c p custom
    rw [calculate_eq]
    have hex := nonweekend_exists (get_weekend_days c)
      (get_weekend_days_shape c) (r + n) _
      (three_le_stdFuel
        (fetch_public_holidays p c (yearOf (r + n)) ++ custom) (r + n))
    have hspec := rollforward_exclude_spec (get_weekend_days c)
      (fetch_public_holidays p c (yearOf (r + n)) ++ custom) _ (r + n) hex
    exact ⟨hspec.1, rollforward_le _ _ _ _ (r + n), hspec.2⟩
  · decide

theorem C2_witness :
    weekday (calculate_last_working_day (toOrdinal 2024 1 1) 5 "USA"
        (fun _ _ => some []) [] "exclude_weekends_only") ∉
      get_weekend_days "USA" ∧
    weekday (toOrdinal 2024 1 7) ∈ get_weekend_days "USA" :=
  ⟨(C2_exclude_weekends_only_spec.1 (toOrdinal 2024 1 1) 5 "USA"
      (fun _ _ => some []) []).1,
   (C2_exclude_weekends_only_spec.1 (toOrdinal 2024 1 1) 5 "USA"
      (fun _ _ => some []) []).2.2 (toOrdinal 2024 1 7) (by decide) (by decide)⟩

/-- C3: the three worked scenarios of the spec. Resignation 2024-01-01,
notice 5, USA, no holidays, `"include_weekends"` → 2024-01-08; the same
with UAE → 2024-01-07; resignation 2024-03-01, notice 10, custom holiday
2024-03-11, `"include_weekends"` → 2024-03-12. -/
theorem C3_worked_scenarios :
    calculate_last_working_day (toOrdinal 2024 1 1) 5 "USA"
      (fun _ _ => some []) [] "include_weekends" = toOrdinal 2024 1 8 ∧
    calculate_last_working_day (toOrdinal 2024 1 1) 5 "UAE"
      (fun _ _ => some []) [] "include_weekends" = toOrdinal 2024 1 7 ∧
    calculate_last_working_day (toOrdinal 2024 3 1) 10 "USA"
      (fun _ _ => some []) [toOrdinal 2024 3 11] "include_weekends" =
      toOrdinal 2024 3 12 := by
  refine ⟨by decide, by decide, by decide⟩

/-- C4: `get_weekend_days` is total and case-insensitive: any string
whose lower-casing is in the Sat/Sun group yields `[5, 6]`, any string
whose lower-casing is in the Fri/Sat group yields `[4, 5]`, and every
other string yields the default `[5, 6]`. -/
theorem C4_get_weekend_days_table (c : String) :
    (lower c ∈ ["india", "usa", "uk", "canada", "australia", "singapore"] →
      get_weekend_days c = [5, 6]) ∧
    (lower c ∈ ["uae", "saudi arabia", "qatar"] →
      get_weekend_days c = [4, 5]) ∧
    (lower c ∉ ["india", "usa", "uk", "canada", "australia", "singapore"] →
      lower c ∉ ["uae", "saudi arabia", "qatar"] →
      get_weekend_days c = [5, 6]) := by
  refine ⟨fun h1 => ?_, fun h2 => ?_, fun h1 h2 => ?_⟩
  · rw [get_weekend_days, if_pos h1]
  · have hn : lower c ∉ ["india", "usa", "uk", "canada", "australia",
        "singapore"] := by
      simp only [List.mem_cons, List.not_mem_nil, or_false] at h2
      rcases h2 with h | h | h <;> rw [h] <;> decide
    rw [get_weekend_days, if_neg hn, if_pos h2]
  · rw [get_weekend_days, if_neg h1, if_neg h2]

theorem C4_witness :
    get_weekend_days "UsA" = [5, 6] ∧
    get_weekend_days "QATAR" = [4, 5] ∧
    get_weekend_days "Deutschland" = [5, 6] :=
  ⟨(C4_get_weekend_days_table "UsA").1 (by decide),
   (C4_get_weekend_days_table "QATAR").2.1 (by decide),
   (C4_get_weekend_days_table "Deutschland").2.2 (by decide) (by decide)⟩

/-- C5: `calculate_last_working_day` never fails: when the provider
fails at the queried year (modelled by the oracle returning `none`, the
case in which the source's `try` block raises), the holiday set used is
empty and the result equals the computation carried out with an
explicitly empty provider holiday set — only weekends and custom
holidays. -/
theorem C5_provider_failure_graceful (r n : Nat) (c : String)
    (p : String → Nat → Option (List Nat)) (custom : List Nat) (rule : String)
    (hfail : p c (yearOf (r + n)) = none) :
    fetch_public_holidays p c (yearOf (r + n)) = [] ∧
    calculate_last_working_day r n c p custom rule =
      calculate_last_working_day r n c (fun _ _ => some []) custom rule := by
  have hfetch : fetch_public_holidays p c (yearOf (r + n)) = [] := by
    simp only [fetch_public_holidays, hfail]
  refine ⟨hfetch, ?_⟩
  rw [calculate_eq, calculate_eq, hfetch]
  rfl

theorem C5_witness :
    fetch_public_holidays (fun _ _ => none) "USA"
        (yearOf (toOrdinal 2024 1 1 + 5)) = [] ∧
    calculate_last_working_day (toOrdinal 2024 1 1) 5 "USA"
        (fun _ _ => none) [] "include_weekends" =
      calculate_last_working_day (toOrdinal 2024 1 1) 5 "USA"
        (fun _ _ => some []) [] "include_weekends" :=
  C5_provider_failure_graceful (toOrdinal 2024 1 1) 5 "USA"
    (fun _ _ => none) [] "include_weekends" rfl

/-- C6: the provider is consulted exactly once, at the year of the
tentative day computed before any adjustment: two providers that agree
at the country and that single year give equal results, however they
differ on every other year — in particular on any later year the
rollforward may reach. -/
theorem C6_single_year_query (r n : Nat) (c : String) (custom : List Nat)
    (rule : String) (p₁ p₂ : String → Nat → Option (List Nat))
    (hagree : p₁ c (yearOf (r + n)) = p₂ c (yearOf (r + n))) :
    calculate_last_working_day r n c p₁ custom rule =
      calculate_last_working_day r n c p₂ custom rule := by
  rw [calculate_eq, calculate_eq]
  simp only [fetch_public_holidays, hagree]

theorem C6_witness :
    calculate_last_working_day (toOrdinal 2024 12 20) 5 "USA"
        (fun _ y => if y = 2024 then some [] else some [toOrdinal 2025 1 1])
        [] "include_weekends" =
      calculate_last_working_day (toOrdinal 2024 12 20) 5 "USA"
        (fun _ _ => some []) [] "include_weekends" :=
  C6_single_year_query (toOrdinal 2024 12 20) 5 "USA" [] "include_weekends"
    (fun _ y => if y = 2024 then some [] else some [toOrdinal 2025 1 1])
    (fun _ _ => some []) (by decide)

/-- C7: the rollforward loop terminates within `stdFuel` iterations for
every input: running it with any amount of extra fuel returns the same
day `calculate_last_working_day` returns, because the weekend profile
occupies only two of the seven weekday indices and the holiday list is
finite, so a stopping day is always reached. -/
theorem C7_rollforward_terminates (r n : Nat) (c : String)
    (p : String → Nat → Option (List Nat)) (custom : List Nat) (rule : String)
    (extra : Nat) :
    rollforward rule (get_weekend_days c)
        (fetch_public_holidays p c (yearOf (r + n)) ++ custom)
        (stdFuel (fetch_public_holidays p c (yearOf (r + n)) ++ custom) (r + n)
          + extra) (r + n) =
      calculate_last_working_day r n c p custom rule := by
  rw [calculate_eq]
  set w := get_weekend_days c with hw
  set all := fetch_public_holidays p c (yearOf (r + n)) ++ custom with hall
  set t := r + n with ht
  by_cases hrule : rule = "exclude_weekends_only"
  · subst hrule
    have hex2 := nonweekend_exists w (get_weekend_days_shape c) t
      (stdFuel all t) (three_le_stdFuel all t)
    have hex1 := nonweekend_exists w (get_weekend_days_shape c) t
      (stdFuel all t + extra) (by have := three_le_stdFuel all t; omega)
    have h1 := rollforward_exclude_spec w all (stdFuel all t + extra) t hex1
    have h2 := rollforward_exclude_spec w all (stdFuel all t) t hex2
    exact least_unique (fun x => weekday x ∉ w) t _ _
      (rollforward_le _ _ _ _ t) h1.1
      (fun e he1 he2 => not_not_intro (h1.2 e he1 he2))
      (rollforward_le _ _ _ _ t) h2.1
      (fun e he1 he2 => not_not_intro (h2.2 e he1 he2))
  · have hex2 := escape_exists w all (get_weekend_days_shape c) t
    have hex1 : ∃ d, t ≤ d ∧ d ≤ t + (stdFuel all t + extra) ∧
        ¬ blocked w all d := by
      obtain ⟨d, hd1, hd2, hd3⟩ := hex2
      exact ⟨d, hd1, by omega, hd3⟩
    have h1 := rollforward_include_spec rule hrule w all
      (stdFuel all t + extra) t hex1
    have h2 := rollforward_include_spec rule hrule w all (stdFuel all t) t hex2
    exact least_unique (fun x => ¬ blocked w all x) t _ _
      (rollforward_le _ _ _ _ t) h1.1
      (fun e he1 he2 => not_not_intro (h1.2 e he1 he2))
      (rollforward_le _ _ _ _ t) h2.1
      (fun e he1 he2 => not_not_intro (h2.2 e he1 he2))

/-- C8: appending a date already present in the combined holiday
collection to the custom holiday list never changes the result. -/
theorem C8_duplicate_custom_holiday (r n : Nat) (c : String)
    (p : String → Nat → Option (List Nat)) (custom : List Nat) (rule : String)
    (d : Nat) (hd : d ∈ fetch_public_holidays p c (yearOf (r + n)) ++ custom) :
    calculate_last_working_day r n c p (custom ++ [d]) rule =
      calculate_last_working_day r n c p custom rule := by
  rw [calculate_eq, calculate_eq]
  set w := get_weekend_days c with hwdef
  set fetched := fetch_public_holidays p c (yearOf (r + n)) with hfdef
  set t := r + n with htdef
  have hmem : ∀ x, x ∈ fetched ++ (custom ++ [d]) ↔ x ∈ fetched ++ custom := by
    intro x
    simp only [List.mem_append, List.mem_singleton]
    constructor
    · rintro (h | h | h)
      · exact Or.inl h
      · exact Or.inr h
      · subst h
        exact List.mem_append.mp hd
    · rintro (h | h)
      · exact Or.inl h
      · exact Or.inr (Or.inl h)
  have hblocked : ∀ x, blocked w (fetched ++ (custom ++ [d])) x ↔
      blocked w (fetched ++ custom) x := by
    intro x
    rw [blocked, blocked, hmem x]
  by_cases hrule : rule = "exclude_weekends_only"
  · subst hrule
    have hex1 := nonweekend_exists w (get_weekend_days_shape c) t
      (stdFuel (fetched ++ (custom ++ [d])) t)
      (three_le_stdFuel (fetched ++ (custom ++ [d])) t)
    have hex2 := nonweekend_exists w (get_weekend_days_shape c) t
      (stdFuel (fetched ++ custom) t) (three_le_stdFuel (fetched ++ custom) t)
    have h1 := rollforward_exclude_spec w (fetched ++ (custom ++ [d])) _ t hex1
    have h2 := rollforward_exclude_spec w (fetched ++ custom) _ t hex2
    exact least_unique (fun x => weekday x ∉ w) t _ _
      (rollforward_le _ _ _ _ t) h1.1
      (fun e he1 he2 => not_not_intro (h1.2 e he1 he2))
      (rollforward_le _ _ _ _ t) h2.1
      (fun e he1 he2 => not_not_intro (h2.2 e he1 he2))
  · have hex1 := escape_exists w (fetched ++ (custom ++ [d]))
      (get_weekend_days_shape c) t
    have hex2 := escape_exists w (fetched ++ custom) (get_weekend_days_shape c) t
    have h1 := rollforward_include_spec rule hrule w (fetched ++ (custom ++ [d]))
      _ t hex1
    have h2 := rollforward_include_spec rule hrule w (fetched ++ custom) _ t hex2
    exact least_unique (fun x => ¬ blocked w (fetched ++ custom) x) t _ _
      (rollforward_le _ _ _ _ t)
      (fun hb => h1.1 ((hblocked _).mpr hb))
      (fun e he1 he2 => not_not_intro ((hblocked e).mp (h1.2 e he1 he2)))
      (rollforward_le _ _ _ _ t) h2.1
      (fun e he1 he2 => not_not_intro (h2.2 e he1 he2))

theorem C8_witness :
    calculate_last_working_day (toOrdinal 2024 3 1) 10 "USA"
        (fun _ _ => some []) ([toOrdinal 2024 3 11] ++ [toOrdinal 2024 3 11])
        "include_weekends" =
      calculate_last_working_day (toOrdinal 2024 3 1) 10 "USA"
        (fun _ _ => some []) [toOrdinal 2024 3 11] "include_weekends" :=
  C8_duplicate_custom_holiday (toOrdinal 2024 3 1) 10 "USA"
    (fun _ _ => some []) [toOrdinal 2024 3 11] "include_weekends"
    (toOrdinal 2024 3 11) (by decide)

/-- C9: `calculate_last_working_day` is deterministic: two invocations
with the same inputs and providers returning the same holiday sets
everywhere give the same result. -/
theorem C9_deterministic (r n : Nat) (c : String) (custom : List Nat)
    (rule : String) (p₁ p₂ : String → Nat → Option (List Nat))
    (hp : ∀ cc y, p₁ cc y = p₂ cc y) :
    calculate_last_working_day r n c p₁ custom rule =
      calculate_last_working_day r n c p₂ custom rule := by
  have hpe : p₁ = p₂ := funext fun cc => funext fun y => hp cc y
  rw [hpe]

theorem C9_witness :
    calculate_last_working_day (toOrdinal 2024 1 1) 5 "USA"
        (fun _ _ => some []) [] "include_weekends" =
      calculate_last_working_day (toOrdinal 2024 1 1) 5 "USA"
        (fun _ _ => some []) [] "include_weekends" :=
  C9_deterministic (toOrdinal 2024 1 1) 5 "USA" [] "include_weekends"
    (fun _ _ => some []) (fun _ _ => some []) (fun _ _ => rfl)

/-- C10: holiday dates strictly before the tentative day never influence
the result: two combined holiday collections that agree on every date at
or after resignation date + notice period give equal results, under
every rule. -/
theorem C10_early_holidays_irrelevant (r n : Nat) (c : String) (rule : String)
    (p₁ p₂ : String → Nat → Option (List Nat)) (custom₁ custom₂ : List Nat)
    (hagree : ∀ x, r + n ≤ x →
      (x ∈ fetch_public_holidays p₁ c (yearOf (r + n)) ++ custom₁ ↔
        x ∈ fetch_public_holidays p₂ c (yearOf (r + n)) ++ custom₂)) :
    calculate_last_working_day r n c p₁ custom₁ rule =
      calculate_last_working_day r n c p₂ custom₂ rule := by
  rw [calculate_eq, calculate_eq]
  set w := get_weekend_days c with hwdef
  set all₁ := fetch_public_holidays p₁ c (yearOf (r + n)) ++ custom₁ with h1def
  set all₂ := fetch_public_holidays p₂ c (yearOf (r + n)) ++ custom₂ with h2def
  set t := r + n with htdef
  by_cases hrule : rule = "exclude_weekends_only"
  · subst hrule
    have hex1 := nonweekend_exists w (get_weekend_days_shape c) t
      (stdFuel all₁ t) (three_le_stdFuel all₁ t)
    have hex2 := nonweekend_exists w (get_weekend_days_shape c) t
      (stdFuel all₂ t) (three_le_stdFuel all₂ t)
    have h1 := rollforward_exclude_spec w all₁ _ t hex1
    have h2 := rollforward_exclude_spec w all₂ _ t hex2
    exact least_unique (fun x => weekday x ∉ w) t _ _
      (rollforward_le _ _ _ _ t) h1.1
      (fun e he1 he2 => not_not_intro (h1.2 e he1 he2))
      (rollforward_le _ _ _ _ t) h2.1
      (fun e he1 he2 => not_not_intro (h2.2 e he1 he2))
  · have hex1 := escape_exists w all₁ (get_weekend_days_shape c) t
    have hex2 := escape_exists w all₂ (get_weekend_days_shape c) t
    have h1 := rollforward_include_spec rule hrule w all₁ _ t hex1
    have h2 := rollforward_include_spec rule hrule w all₂ _ t hex2
    have hconv : ∀ x, t ≤ x → (blocked w all₁ x ↔ blocked w all₂ x) := by
      intro x hx
      rw [blocked, blocked, hagree x hx]
    exact least_unique (fun x => ¬ blocked w all₂ x) t _ _
      (rollforward_le _ _ _ _ t)
      (fun hb => h1.1 ((hconv _ (rollforward_le _ _ _ _ t)).mpr hb))
      (fun e he1 he2 => not_not_intro ((hconv e he1).mp (h1.2 e he1 he2)))
      (rollforward_le _ _ _ _ t) h2.1
      (fun e he1 he2 => not_not_intro (h2.2 e he1 he2))

theorem C10_witness :
    calculate_last_working_day 10 5 "USA" (fun _ _ => some [3]) []
        "include_weekends" =
      calculate_last_working_day 10 5 "USA" (fun _ _ => some []) []
        "include_weekends" :=
  C10_early_holidays_irrelevant 10 5 "USA" "include_weekends"
    (fun _ _ => some [3]) (fun _ _ => some []) [] []
    (by
      intro x hx
      simp only [fetch_public_holidays, List.append_nil, List.mem_singleton,
        List.not_mem_nil, iff_false]
      omega)

end LastWorkingDay
